import Mathlib

/-
  Verification development for the TRANSFORMERREEMB encoder/decoder architecture
  (PBnet/src/models/architectures/transformerreemb.py).

  Modelling conventions:
  * A PyTorch tensor of shape [a, b, c] is a total function `Fin a → Fin b → Fin c → ℝ`.
  * Learned parameters (weights of `nn.Linear`, the `nn.Embedding` bias table, the
    LayerNorm scale) and external library modules (the `nn.TransformerEncoder` /
    `nn.TransformerDecoder` stacks, `RotaryEmbedding`, `nn.Dropout`) are universally
    quantified parameters of the forward functions.
  * Float arithmetic is idealised over ℝ: `torch.log`/`exp`/`softmax` become
    `Real.log`/`Real.exp`, and `.long()` (truncation toward zero) becomes `realTrunc`.
-/

/-- A rank-3 tensor of shape `[a, b, c]`. -/
abbrev Tensor3 (a b c : ℕ) : Type := Fin a → Fin b → Fin c → ℝ

/-- A rank-4 tensor of shape `[a, b, c, d]`. -/
abbrev Tensor4 (a b c d : ℕ) : Type := Fin a → Fin b → Fin c → Fin d → ℝ

/-- Flat index of the pair `(i, j)` in a fused axis of size `m * n`, `i` being the
outer axis.  This is the einops `(h d)` grouping convention, and also the layout of
`torch.chunk` parts along a dimension. -/
def finCombine {m n : ℕ} (i : Fin m) (j : Fin n) : Fin (m * n) :=
  ⟨i.1 * n + j.1, by
    have h1 : i.1 * n + j.1 < (i.1 + 1) * n := by
      have := j.2; rw [Nat.succ_mul]; omega
    have h2 : (i.1 + 1) * n ≤ m * n := Nat.mul_le_mul_right n i.2
    omega⟩

/-- Outer component of a flat index in a fused `(m n)` axis. -/
def finOuter {m n : ℕ} (e : Fin (m * n)) : Fin m :=
  ⟨e.1 / n, Nat.div_lt_of_lt_mul (by rw [Nat.mul_comm n m]; exact e.2)⟩

/-- Inner component of a flat index in a fused `(m n)` axis. -/
def finInner {m n : ℕ} (e : Fin (m * n)) : Fin n :=
  ⟨e.1 % n, by
    rcases Nat.eq_zero_or_pos n with h | h
    · subst h; exact absurd e.2 (by simp)
    · exact Nat.mod_lt _ h⟩

/-- `nn.Linear(inDim, outDim)` applied to one feature vector: `y = W v + b`. -/
def linearMap {inDim outDim : ℕ} (W : Fin outDim → Fin inDim → ℝ) (b : Fin outDim → ℝ)
    (v : Fin inDim → ℝ) : Fin outDim → ℝ :=
  fun o => (∑ i, W o i * v i) + b o

/-- `torch.cat([u, v, w], dim=-1)` on one channel fibre. -/
def cat3Fun {p q r : ℕ} (u : Fin p → ℝ) (v : Fin q → ℝ) (w : Fin r → ℝ) :
    Fin (p + q + r) → ℝ :=
  fun c =>
    if h1 : c.1 < p then u ⟨c.1, h1⟩
    else if h2 : c.1 < p + q then v ⟨c.1 - p, by omega⟩
    else w ⟨c.1 - (p + q), by have := c.2; omega⟩

/- ---------------------------------------------------------------------------
   EinopsToAndFrom (source lines 44-57): generic axis-permutation wrapper.

   An einops pattern is modelled as a list of groups, each group a list of axis
   names: a bare name is a singleton group, a parenthesized merge `(h w)` is
   the group `["h", "w"]`.  The wrapper's bookkeeping
   `dict(tuple(zip(self.from_einops.split(' '), shape)))` pairs the
   space-separated tokens of the SOURCE pattern with the input shape and passes
   them as axis-size keyword arguments to the reverse rearrange, so a valid
   wrapper pair has a parenthesis-free source pattern (a parenthesized source
   token such as `(h` is not a valid axis name, and a source-side split would
   lack its axis sizes in the forward rearrange), while the TARGET pattern may
   merge the axes into arbitrary parenthesized groups; the reverse rearrange
   splits the merged axes again using the recorded sizes.  Merged axes use
   einops' row-major layout (first name of a group most significant).
   --------------------------------------------------------------------------- -/

/-- A tensor for the generic einops model: a shape list together with data
addressed by coordinate lists (coordinates aligned with the shape). -/
structure ETensor where
  shape : List ℕ
  data : List ℕ → ℝ

/-- Flatten the per-axis coordinates of one merged group into the coordinate of
the merged axis (row-major).  `sz` gives each axis' size and `coord` each
axis' coordinate. -/
def encodeGroup (sz coord : String → ℕ) : List String → ℕ
  | [] => 0
  | b :: rest => coord b * (rest.map sz).prod + encodeGroup sz coord rest

/-- Extract the coordinate of the axis `a` from the flat coordinate `n` of a
merged group: the mixed-radix digit of `a`. -/
def decodeCoord (sz : String → ℕ) : List String → ℕ → String → ℕ
  | [], _, _ => 0
  | b :: rest, n, a =>
      if b = a then n / (rest.map sz).prod % sz b
      else decodeCoord sz rest n a

/-- Index of the first group of a target pattern containing the axis `a`. -/
def findGroup (toPat : List (List String)) (a : String) : ℕ :=
  toPat.findIdx (fun g => decide (a ∈ g))

/-- `einops.rearrange` from a parenthesis-free source pattern to a grouped
target pattern: each target group's size is the product of its axes' sizes
(axis sizes read off the source pattern and the input shape), and each source
coordinate is the digit of its axis within the flat coordinate of the group
holding that axis. -/
def rearrangeMerge (fromNames : List String) (toPat : List (List String))
    (t : ETensor) : ETensor :=
  let env : String → ℕ := fun a => t.shape.getD (fromNames.indexOf a) 0
  { shape := toPat.map (fun g => (g.map env).prod)
    data := fun idx => t.data (fromNames.map (fun a =>
      decodeCoord env (toPat.getD (findGroup toPat a) [])
        (idx.getD (findGroup toPat a) 0) a)) }

/-- `einops.rearrange` from a grouped target pattern back to the
parenthesis-free source pattern, splitting each merged group with the supplied
axis sizes (the wrapper's recorded `reconstitute_kwargs`). -/
def rearrangeSplit (toPat : List (List String)) (fromNames : List String)
    (sizes : String → ℕ) (t : ETensor) : ETensor :=
  { shape := fromNames.map sizes
    data := fun idx => t.data (toPat.map (fun g =>
      encodeGroup sizes (fun a => idx.getD (fromNames.indexOf a) 0) g)) }

/-- `EinopsToAndFrom.forward`: record the source-axis sizes from the input
shape, rearrange to the target layout, apply the wrapped function, rearrange
back to the source layout using the recorded sizes. -/
def einopsToAndFrom (fromNames : List String) (toPat : List (List String))
    (fn : ETensor → ETensor) (x : ETensor) : ETensor :=
  let reconstituteKwargs : String → ℕ := fun a => x.shape.getD (fromNames.indexOf a) 0
  let x1 := rearrangeMerge fromNames toPat x
  let x2 := fn x1
  rearrangeSplit toPat fromNames reconstituteKwargs x2

/- ---------------------------------------------------------------------------
   RelativePositionBias (source lines 158-202).
   --------------------------------------------------------------------------- -/

/-- PyTorch `.long()` on a float tensor: truncation toward zero. -/
noncomputable def realTrunc (x : ℝ) : ℤ := if 0 ≤ x then ⌊x⌋ else -⌊-x⌋

/-- `RelativePositionBias._relative_position_bucket` (source lines 170-188):
sign goes to the upper/lower half of the (halved) bucket range, small magnitudes
map linearly to themselves, large magnitudes map logarithmically and are clipped
to the end of the half range. -/
noncomputable def relativePositionBucket (relativePosition : ℤ)
    (numBuckets maxDistance : ℕ) : ℤ :=
  let n0 : ℤ := -relativePosition
  let nb : ℕ := numBuckets / 2
  let ret : ℤ := if n0 < 0 then (nb : ℤ) else 0
  let n : ℤ := |n0|
  let maxExact : ℕ := nb / 2
  let valIfLarge : ℤ := (maxExact : ℤ) +
    realTrunc (Real.log ((n : ℝ) / (maxExact : ℝ)) /
      Real.log ((maxDistance : ℝ) / (maxExact : ℝ)) * ((nb : ℝ) - (maxExact : ℝ)))
  let valIfLargeC : ℤ := min valIfLarge ((nb : ℤ) - 1)
  ret + (if n < (maxExact : ℤ) then n else valIfLargeC)

/-- The per-half magnitude part of `relativePositionBucket` (everything except the
sign offset), used to relate the two halves in proofs. -/
noncomputable def bucketHalf (n : ℤ) (numBuckets maxDistance : ℕ) : ℤ :=
  let nb : ℕ := numBuckets / 2
  let maxExact : ℕ := nb / 2
  let valIfLarge : ℤ := (maxExact : ℤ) +
    realTrunc (Real.log ((n : ℝ) / (maxExact : ℝ)) /
      Real.log ((maxDistance : ℝ) / (maxExact : ℝ)) * ((nb : ℝ) - (maxExact : ℝ)))
  if n < (maxExact : ℤ) then n else min valIfLarge ((nb : ℤ) - 1)

/-- `RelativePositionBias.forward` (source lines 190-202): bucketize the offset
matrix `rel_pos[i,j] = j - i`, look up the learned per-head embedding `w`, rearrange
to `[heads, n, n]`, and add the hard-distance mask
`-(((rel_pos > 32) + (rel_pos < -32)) * 1e8)`.  The `eval` argument is accepted but
never read (the source guard is the literal `True`). -/
noncomputable def relativePositionBiasForward {heads : ℕ} (w : ℤ → Fin heads → ℝ)
    (numBuckets maxDistance : ℕ) (n : ℕ) (ev : Bool) :
    Fin heads → Fin n → Fin n → ℝ :=
  let relPos : Fin n → Fin n → ℤ := fun i j => (j : ℤ) - (i : ℤ)
  let rpBucket : Fin n → Fin n → ℤ :=
    fun i j => relativePositionBucket (relPos i j) numBuckets maxDistance
  let _ev := ev
  if true then
    let mask : Fin n → Fin n → ℝ := fun i j =>
      -(((if 32 < relPos i j then (1 : ℝ) else 0) +
         (if relPos i j < -32 then (1 : ℝ) else 0)) * 100000000)
    fun h i j => w (rpBucket i j) h + mask i j
  else
    fun h i j => w (rpBucket i j) h

/- ---------------------------------------------------------------------------
   Attention (source lines 59-136).
   --------------------------------------------------------------------------- -/

/-- Largest finite value of `torch.float32` (`torch.finfo(torch.float32).max`),
`(2 - 2^-23) * 2^127`. -/
def float32Max : ℝ := 2 ^ 128 - 2 ^ 104

/-- `Attention.forward` (source lines 76-136) on an input of shape
`[B, N, dim]`.  `toQkv`/`toOut` are the two bias-free linear maps, `rot` the
optional rotary-embedding module (external library, abstract), `posBias` the
optional additive relative-position bias, `focusPresentMask` the optional
per-batch boolean mask.  If the mask is present and all-true the layer returns
`to_out(values)` directly; otherwise it runs the scaled dot-product path with
optional rotary rotation, bias addition, per-batch self/all masking, row-max
subtraction and softmax. -/
noncomputable def attentionForward (heads dimHead B N dim : ℕ)
    (toQkv : Fin (3 * (heads * dimHead)) → Fin dim → ℝ)
    (toOut : Fin dim → Fin (heads * dimHead) → ℝ)
    (rot : Option (Tensor4 B heads N dimHead → Tensor4 B heads N dimHead))
    (x : Tensor3 B N dim)
    (posBias : Option (Fin heads → Fin N → Fin N → ℝ))
    (focusPresentMask : Option (Fin B → Bool)) : Tensor3 B N dim :=
  let qkv : Fin B → Fin N → Fin (3 * (heads * dimHead)) → ℝ :=
    fun b n o => ∑ i, toQkv o i * x b n i
  let shortcut : Bool :=
    match focusPresentMask with
    | some m => decide (∀ i, m i = true)
    | none => false
  if shortcut then
    fun b n o => ∑ e, toOut o e * qkv b n (finCombine (2 : Fin 3) e)
  else
    let q0 : Tensor4 B heads N dimHead :=
      fun b h n d => qkv b n (finCombine (0 : Fin 3) (finCombine h d))
    let k0 : Tensor4 B heads N dimHead :=
      fun b h n d => qkv b n (finCombine (1 : Fin 3) (finCombine h d))
    let v : Tensor4 B heads N dimHead :=
      fun b h n d => qkv b n (finCombine (2 : Fin 3) (finCombine h d))
    let qs : Tensor4 B heads N dimHead :=
      fun b h n d => q0 b h n d * ((dimHead : ℝ) ^ (-(1 / 2) : ℝ))
    let q := match rot with | some r => r qs | none => qs
    let k := match rot with | some r => r k0 | none => k0
    let sim : Fin B → Fin heads → Fin N → Fin N → ℝ :=
      fun b h i j => ∑ d, q b h i d * k b h j d
    let simB : Fin B → Fin heads → Fin N → Fin N → ℝ :=
      match posBias with
      | some pb => fun b h i j => sim b h i j + pb h i j
      | none => sim
    let simM : Fin B → Fin heads → Fin N → Fin N → ℝ :=
      match focusPresentMask with
      | some m =>
          if ∀ i, m i = false then simB
          else fun b h i j =>
            if m b = true → i = j then simB b h i j else -float32Max
      | none => simB
    let simS : Fin B → Fin heads → Fin N → Fin N → ℝ :=
      fun b h i j => simM b h i j - ⨆ jm, simM b h i jm
    let attn : Fin B → Fin heads → Fin N → Fin N → ℝ :=
      fun b h i j => Real.exp (simS b h i j) / ∑ jm, Real.exp (simS b h i jm)
    let out : Tensor4 B heads N dimHead :=
      fun b h i d => ∑ j, attn b h i j * v b h j d
    fun b n o => ∑ e, toOut o e * out b (finOuter e) n (finInner e)

/- ---------------------------------------------------------------------------
   PositionalEncoding (source lines 138-155) and LayerNorm (source lines 15-24).
   --------------------------------------------------------------------------- -/

/-- `div_term` of `PositionalEncoding.__init__`: `exp(k * (-log 10000) / d_model)`
for an even feature index `k`. -/
noncomputable def peDivTerm (dModel k : ℕ) : ℝ :=
  Real.exp ((k : ℝ) * (-Real.log 10000) / (dModel : ℝ))

/-- The fixed sinusoidal table `pe` of `PositionalEncoding`: even feature columns
hold `sin(pos * div_term)`, odd columns `cos(pos * div_term)` for the preceding
even index. -/
noncomputable def peTable (dModel : ℕ) (pos : ℕ) (c : Fin dModel) : ℝ :=
  if c.1 % 2 = 0 then Real.sin ((pos : ℝ) * peDivTerm dModel c.1)
  else Real.cos ((pos : ℝ) * peDivTerm dModel (c.1 - 1))

/-- The custom `LayerNorm` (source lines 15-24): normalise over the trailing
feature axis with the biased variance estimator, then scale by the learned
`gamma` (no shift). -/
noncomputable def layerNorm {a b d : ℕ} (eps : ℝ) (gamma : Fin d → ℝ)
    (x : Tensor3 a b d) : Tensor3 a b d :=
  fun i j c =>
    let mean : ℝ := (∑ e, x i j e) / (d : ℝ)
    let varB : ℝ := (∑ e, (x i j e - mean) ^ 2) / (d : ℝ)
    (x i j c - mean) / Real.sqrt (varB + eps) * gamma c

/- ---------------------------------------------------------------------------
   Encoder_TRANSFORMERREEMB (source lines 219-303).
   --------------------------------------------------------------------------- -/

/-- The batch mapping consumed (and mutated) by the encoder: keys `x`, `y`,
`mask`, and the `x_delta` key the forward pass stores. -/
structure EncoderBatch (bs nf posDim audioDim : ℕ) where
  x : Tensor3 bs nf posDim
  y : Tensor3 bs nf audioDim
  mask : Fin bs → Fin nf → Bool
  xDelta : Option (Tensor3 bs nf posDim)

/-- Learned parameters and external modules of `Encoder_TRANSFORMERREEMB`.
`latent_dim = pose_latent_dim + pose_latent_dim + audio_latent_dim` is the width
of the concatenation `[x_ref_emb, x_emb, y_emb]`.  `posDrop` is the dropout of
`sequence_pos_encoder` and `seqTransEncoder` the `nn.TransformerEncoder` stack
(taking `src` and `src_key_padding_mask`), both abstract. -/
structure EncoderParams (bs nf posDim audioDim pld aLat : ℕ) where
  firstposeEmbeddingW : Fin pld → Fin posDim → ℝ
  firstposeEmbeddingB : Fin pld → ℝ
  poseEmbeddingW : Fin pld → Fin posDim → ℝ
  poseEmbeddingB : Fin pld → ℝ
  audioEmbeddingW : Fin aLat → Fin audioDim → ℝ
  audioEmbeddingB : Fin aLat → ℝ
  muW : Fin aLat → Fin (pld + pld + aLat) → ℝ
  muB : Fin aLat → ℝ
  sigmaW : Fin aLat → Fin (pld + pld + aLat) → ℝ
  sigmaB : Fin aLat → ℝ
  posDrop : Tensor3 nf bs (pld + pld + aLat) → Tensor3 nf bs (pld + pld + aLat)
  seqTransEncoder : Tensor3 nf bs (pld + pld + aLat) → (Fin bs → Fin nf → Bool) →
    Tensor3 nf bs (pld + pld + aLat)

/-- Output mapping of the encoder: keys `mu` and `logvar`, shape
`[frames, batch, audio_latent_dim]`. -/
structure EncoderOutput (nf bs aLat : ℕ) where
  mu : Tensor3 nf bs aLat
  logvar : Tensor3 nf bs aLat

/-- The per-frame transformer-stack output `final` of `Encoder_TRANSFORMERREEMB.forward`
(source lines 276-297): reference-frame deltas, the three embeddings concatenated,
sinusoidal positional encoding plus dropout, then the transformer encoder with
`src_key_padding_mask = ~mask`. -/
noncomputable def encoderFinal {bs nf posDim audioDim pld aLat : ℕ} [NeZero nf]
    (P : EncoderParams bs nf posDim audioDim pld aLat)
    (batch : EncoderBatch bs nf posDim audioDim) :
    Tensor3 nf bs (pld + pld + aLat) :=
  let x := batch.x
  let y := batch.y
  let mask := batch.mask
  let xRef0 : Fin bs → Fin posDim → ℝ := fun b p => x b 0 p
  let xDelta : Tensor3 bs nf posDim := fun b t p => x b t p - xRef0 b p
  let xRefEmb : Tensor3 nf bs pld :=
    fun _t b c => linearMap P.firstposeEmbeddingW P.firstposeEmbeddingB (xRef0 b) c
  let xEmb : Tensor3 nf bs pld :=
    fun t b c => linearMap P.poseEmbeddingW P.poseEmbeddingB (fun p => xDelta b t p) c
  let yEmb : Tensor3 nf bs aLat :=
    fun t b c => linearMap P.audioEmbeddingW P.audioEmbeddingB (fun d => y b t d) c
  let fused : Tensor3 nf bs (pld + pld + aLat) :=
    fun t b => cat3Fun (xRefEmb t b) (xEmb t b) (yEmb t b)
  let encoded := P.posDrop (fun t b c => fused t b c + peTable (pld + pld + aLat) t.1 c)
  P.seqTransEncoder encoded (fun b t => !(mask b t))

/-- `Encoder_TRANSFORMERREEMB.forward` (source lines 270-303): stores the
reference-frame deltas back into the batch under `x_delta` and returns the
`mu`/`logvar` projections of the per-frame transformer output. -/
noncomputable def encoderForward {bs nf posDim audioDim pld aLat : ℕ} [NeZero nf]
    (P : EncoderParams bs nf posDim audioDim pld aLat)
    (batch : EncoderBatch bs nf posDim audioDim) :
    EncoderBatch bs nf posDim audioDim × EncoderOutput nf bs aLat :=
  let xDelta : Tensor3 bs nf posDim := fun b t p => batch.x b t p - batch.x b 0 p
  let final := encoderFinal P batch
  let mu : Tensor3 nf bs aLat := fun t b c => linearMap P.muW P.muB (final t b) c
  let logvar : Tensor3 nf bs aLat := fun t b c => linearMap P.sigmaW P.sigmaB (final t b) c
  ({ batch with xDelta := some xDelta }, { mu := mu, logvar := logvar })

/- ---------------------------------------------------------------------------
   Decoder_TRANSFORMERREEMB (source lines 306-441).
   --------------------------------------------------------------------------- -/

/-- The batch mapping consumed (and mutated) by the decoder: keys `x`, `z`, `y`,
`mask`, `lengths`, and the `output` key the forward pass stores. -/
structure DecoderBatch (bs nf posDim audioDim aLat : ℕ) where
  x : Tensor3 bs nf posDim
  z : Tensor3 nf bs aLat
  y : Tensor3 bs nf audioDim
  mask : Fin bs → Fin nf → Bool
  lengths : List ℕ
  output : Option (Tensor3 bs nf posDim)

/-- Learned parameters and external modules of `Decoder_TRANSFORMERREEMB`:
the embedding/fusion/projection linears, the LayerNorm scale of the pre-normed
temporal attention, the attention's fused qkv/out weights, the abstract rotary
embedding `rot`, the learned relative-attention-bias table `relAttnBiasTable`,
the positional-encoding dropout, and the abstract `nn.TransformerDecoder` stack
(taking `tgt`, `memory`, `tgt_mask` and `tgt_key_padding_mask`). -/
structure DecoderParams (bs nf posDim audioDim aLat pld heads dimHead : ℕ) where
  firstposeEmbeddingW : Fin pld → Fin posDim → ℝ
  firstposeEmbeddingB : Fin pld → ℝ
  audioEmbeddingW : Fin aLat → Fin audioDim → ℝ
  audioEmbeddingB : Fin aLat → ℝ
  ztimelinearW : Fin pld → Fin (pld + aLat + aLat) → ℝ
  ztimelinearB : Fin pld → ℝ
  initProjW : Fin pld → Fin pld → ℝ
  initProjB : Fin pld → ℝ
  finallayerW : Fin posDim → Fin pld → ℝ
  finallayerB : Fin posDim → ℝ
  normGamma : Fin pld → ℝ
  toQkv : Fin (3 * (heads * dimHead)) → Fin pld → ℝ
  toOut : Fin pld → Fin (heads * dimHead) → ℝ
  rot : Tensor4 bs heads nf dimHead → Tensor4 bs heads nf dimHead
  relAttnBiasTable : ℤ → Fin heads → ℝ
  posDrop : Tensor3 nf bs pld → Tensor3 nf bs pld
  seqTransDecoder : Tensor3 nf bs pld → Tensor3 nf bs pld →
    (Fin bs → Fin heads → Fin nf → Fin nf → ℝ) → (Fin bs → Fin nf → Bool) →
    Tensor3 nf bs pld

/-- The pre-masking pose tensor of `Decoder_TRANSFORMERREEMB.forward`
(source lines 384-433), as a function of the values the forward pass reads from
the batch: the frame-0 slice of `x`, and `z`, `y`, `mask`.  Covers: reference
embedding broadcast over frames, audio embedding, latent permutation, fusion via
`ztimelinear`, zero time queries with positional encoding and `init_proj`, the
residual pre-normed temporal attention with the relative position bias, the
transformer decoder stack (bias repeated over the batch as `tgt_mask`,
`tgt_key_padding_mask = ~mask`), and the final linear projection reshaped to
`[nframes, bs, pos_dim]`. -/
noncomputable def decoderRaw {bs nf posDim audioDim aLat pld heads dimHead : ℕ}
    (numBuckets maxDistance : ℕ)
    (P : DecoderParams bs nf posDim audioDim aLat pld heads dimHead)
    (xRef0 : Fin bs → Fin posDim → ℝ)
    (z : Tensor3 nf bs aLat)
    (y : Tensor3 bs nf audioDim)
    (mask : Fin bs → Fin nf → Bool) : Tensor3 nf bs posDim :=
  let xRefEmb : Tensor3 bs nf pld :=
    fun b _t c => linearMap P.firstposeEmbeddingW P.firstposeEmbeddingB (xRef0 b) c
  let yEmb : Tensor3 bs nf aLat :=
    fun b t a => linearMap P.audioEmbeddingW P.audioEmbeddingB (fun d => y b t d) a
  let zP : Tensor3 bs nf aLat := fun b t c => z t b c
  let fused : Tensor3 bs nf (pld + aLat + aLat) :=
    fun b t => cat3Fun (xRefEmb b t) (zP b t) (yEmb b t)
  let zt : Tensor3 bs nf pld := fun b t c => linearMap P.ztimelinearW P.ztimelinearB (fused b t) c
  let memory : Tensor3 nf bs pld := fun t b c => zt b t c
  let tq0 : Tensor3 nf bs pld := fun _ _ _ => 0
  let tq1 : Tensor3 nf bs pld := P.posDrop (fun t b c => tq0 t b c + peTable pld t.1 c)
  let bias := relativePositionBiasForward P.relAttnBiasTable numBuckets maxDistance nf false
  let tq2 : Tensor3 nf bs pld := fun t b c => linearMap P.initProjW P.initProjB (tq1 t b) c
  let normed : Tensor3 nf bs pld := layerNorm (1 / 100000 : ℝ) P.normGamma tq2
  let attnIn : Tensor3 bs nf pld := fun b l c => normed l b c
  let attnOut : Tensor3 bs nf pld :=
    attentionForward heads dimHead bs nf pld P.toQkv P.toOut (some P.rot) attnIn
      (some (fun h i j => bias h i j)) none
  let tq3 : Tensor3 nf bs pld := fun l b c => attnOut b l c + tq2 l b c
  let dec := P.seqTransDecoder tq3 memory (fun _b h i j => bias h i j) (fun b t => !(mask b t))
  fun t b p => linearMap P.finallayerW P.finallayerB (dec t b) p

/-- `Decoder_TRANSFORMERREEMB.forward` (source lines 375-441): read `x`, `z`,
`y`, `mask`, `lengths` from the batch (only frame 0 of `x` and none of `lengths`
feed the computation), run the pipeline, zero the padded `(frame, batch)`
positions via `output[~mask.T] = 0`, permute to batch-major and store the result
under `output`. -/
noncomputable def decoderForward {bs nf posDim audioDim aLat pld heads dimHead : ℕ}
    [NeZero nf] (numBuckets maxDistance : ℕ)
    (P : DecoderParams bs nf posDim audioDim aLat pld heads dimHead)
    (batch : DecoderBatch bs nf posDim audioDim aLat) :
    DecoderBatch bs nf posDim audioDim aLat :=
  let x := batch.x
  let z := batch.z
  let y := batch.y
  let mask := batch.mask
  let _lengths := batch.lengths
  let xRef0 : Fin bs → Fin posDim → ℝ := fun b p => x b 0 p
  let raw := decoderRaw numBuckets maxDistance P xRef0 z y mask
  let out : Tensor3 nf bs posDim := fun t b p => if mask b t then raw t b p else 0
  let outBT : Tensor3 bs nf posDim := fun b t p => out t b p
  { batch with output := some outBT }

/- ---------------------------------------------------------------------------
   Concrete instances used to witness the theorems below.
   --------------------------------------------------------------------------- -/

/-- A trivial relative-attention-bias table over one head. -/
def w0 : ℤ → Fin 1 → ℝ := fun _ _ => 0

/-- Trivial decoder parameters over unit dimensions (two frames). -/
def decP0 : DecoderParams 1 2 1 1 1 1 1 1 where
  firstposeEmbeddingW := fun _ _ => 0
  firstposeEmbeddingB := fun _ => 0
  audioEmbeddingW := fun _ _ => 0
  audioEmbeddingB := fun _ => 0
  ztimelinearW := fun _ _ => 0
  ztimelinearB := fun _ => 0
  initProjW := fun _ _ => 0
  initProjB := fun _ => 0
  finallayerW := fun _ _ => 0
  finallayerB := fun _ => 0
  normGamma := fun _ => 1
  toQkv := fun _ _ => 0
  toOut := fun _ _ => 0
  rot := id
  relAttnBiasTable := fun _ _ => 0
  posDrop := id
  seqTransDecoder := fun tgt _ _ _ => tgt

/-- A concrete decoder batch: frame 0 valid, frame 1 padded. -/
def decBatch0 : DecoderBatch 1 2 1 1 1 where
  x := fun _ _ _ => 0
  z := fun _ _ _ => 0
  y := fun _ _ _ => 0
  mask := fun _ t => t.1 == 0
  lengths := [2]
  output := none

/-- A second decoder batch agreeing with `decBatch0` on `mask`, `y`, `z` and on
frame 0 of `x`, but with different `lengths` and a different frame 1 of `x`. -/
def decBatch1 : DecoderBatch 1 2 1 1 1 where
  x := fun _ t _ => if t.1 = 1 then 5 else 0
  z := fun _ _ _ => 0
  y := fun _ _ _ => 0
  mask := fun _ t => t.1 == 0
  lengths := [3]
  output := none

/-- Trivial encoder parameters over unit dimensions. -/
def encP0 : EncoderParams 1 2 1 1 1 1 where
  firstposeEmbeddingW := fun _ _ => 0
  firstposeEmbeddingB := fun _ => 0
  poseEmbeddingW := fun _ _ => 0
  poseEmbeddingB := fun _ => 0
  audioEmbeddingW := fun _ _ => 0
  audioEmbeddingB := fun _ => 0
  muW := fun _ _ => 0
  muB := fun _ => 0
  sigmaW := fun _ _ => 0
  sigmaB := fun _ => 0
  posDrop := id
  seqTransEncoder := fun src _ => src

/-- A concrete encoder batch with a non-constant pose sequence. -/
def encBatch0 : EncoderBatch 1 2 1 1 where
  x := fun _ t _ => (t.1 : ℝ) + 3
  y := fun _ _ _ => 0
  mask := fun _ _ => true
  xDelta := none

/-- Trivial fused qkv weights for a unit-dimension attention block. -/
def toQkv0 : Fin (3 * (1 * 1)) → Fin 1 → ℝ := fun o _ => (o.1 : ℝ)

/-- Trivial output-projection weights for a unit-dimension attention block. -/
def toOut0 : Fin 1 → Fin (1 * 1) → ℝ := fun _ _ => 2

/-- A concrete attention input of shape `[1, 1, 1]`. -/
def xA0 : Tensor3 1 1 1 := fun _ _ _ => 7

/-- A concrete einops tensor of shape `[2, 3, 4]`. -/
def xE0 : ETensor where
  shape := [2, 3, 4]
  data := fun idx => (idx.sum : ℝ)

/- ---------------------------------------------------------------------------
   Theorems.
   --------------------------------------------------------------------------- -/

/-- Reading a list back through `indexOf` over a duplicate-free name list is the
identity. -/
theorem map_getD_indexOf_self {l : List String} (hl : l.Nodup) (s : List ℕ)
    (hlen : s.length = l.length) :
    l.map (fun a => s.getD (l.indexOf a) 0) = s := by
  apply List.ext_getElem (by simp [hlen])
  intro i h1 h2
  simp only [List.getElem_map]
  rw [List.indexOf_getElem hl i (by simpa using h1)]
  exact List.getD_eq_getElem s 0 h2

/-- The flat coordinate of a merged group is below the group's merged size when
every axis coordinate is below its axis size. -/
theorem encodeGroup_lt (sz coord : String → ℕ) :
    ∀ g : List String, (∀ b ∈ g, coord b < sz b) →
      encodeGroup sz coord g < (g.map sz).prod := by
  intro g
  induction g with
  | nil =>
    intro _
    simp only [encodeGroup, List.map_nil, List.prod_nil]
    exact Nat.zero_lt_one
  | cons b rest ih =>
    intro hb
    have hbb : coord b < sz b := hb b (List.mem_cons_self b rest)
    have hrest := ih (fun c hc => hb c (List.mem_cons_of_mem b hc))
    simp only [encodeGroup, List.map_cons, List.prod_cons]
    have h1 : (coord b + 1) * (rest.map sz).prod ≤ sz b * (rest.map sz).prod :=
      Nat.mul_le_mul_right _ (by omega)
    have h2 : (coord b + 1) * (rest.map sz).prod =
        coord b * (rest.map sz).prod + (rest.map sz).prod := by
      rw [Nat.succ_mul]
    omega

/-- Adding a multiple of a group's merged size does not change any extracted
digit of that group. -/
theorem decodeCoord_add_mul (sz : String → ℕ) :
    ∀ (g : List String) (a : String), a ∈ g → ∀ m E : ℕ,
      decodeCoord sz g (E + m * (g.map sz).prod) a = decodeCoord sz g E a := by
  intro g
  induction g with
  | nil =>
    intro a ha
    exact absurd ha (List.not_mem_nil a)
  | cons b rest ih =>
    intro a ha m E
    simp only [decodeCoord, List.map_cons, List.prod_cons]
    by_cases hba : b = a
    · rw [if_pos hba, if_pos hba]
      rcases Nat.eq_zero_or_pos ((rest.map sz).prod) with hP | hP
      · rw [hP]
        simp
      · have hrw : E + m * (sz b * (rest.map sz).prod) =
            E + (m * sz b) * (rest.map sz).prod := by ring
        rw [hrw, Nat.add_mul_div_right E (m * sz b) hP, Nat.add_mul_mod_self_right]
    · rw [if_neg hba, if_neg hba]
      have ha2 : a ∈ rest := by
        rcases List.mem_cons.mp ha with h | h
        · exact absurd h.symm hba
        · exact h
      have hrw : E + m * (sz b * (rest.map sz).prod) =
          E + (m * sz b) * (rest.map sz).prod := by ring
      rw [hrw]
      exact ih a ha2 (m * sz b) E

/-- Extracting the digit of an axis from the flattened group coordinate
recovers that axis' coordinate, for in-range coordinates. -/
theorem decodeCoord_encodeGroup (sz coord : String → ℕ) :
    ∀ g : List String, (∀ b ∈ g, coord b < sz b) → ∀ a ∈ g,
      decodeCoord sz g (encodeGroup sz coord g) a = coord a := by
  intro g
  induction g with
  | nil =>
    intro _ a ha
    exact absurd ha (List.not_mem_nil a)
  | cons b rest ih =>
    intro hb a ha
    have hrest : ∀ c ∈ rest, coord c < sz c := fun c hc => hb c (List.mem_cons_of_mem b hc)
    have hlt : encodeGroup sz coord rest < (rest.map sz).prod :=
      encodeGroup_lt sz coord rest hrest
    simp only [encodeGroup, decodeCoord]
    by_cases hba : b = a
    · rw [if_pos hba]
      subst hba
      have hP : 0 < (rest.map sz).prod := Nat.lt_of_le_of_lt (Nat.zero_le _) hlt
      have hcomm : coord b * (rest.map sz).prod + encodeGroup sz coord rest =
          encodeGroup sz coord rest + coord b * (rest.map sz).prod := Nat.add_comm _ _
      rw [hcomm, Nat.add_mul_div_right _ _ hP, Nat.div_eq_of_lt hlt, Nat.zero_add,
        Nat.mod_eq_of_lt (hb b (List.mem_cons_self b rest))]
    · rw [if_neg hba]
      have ha2 : a ∈ rest := by
        rcases List.mem_cons.mp ha with h | h
        · exact absurd h.symm hba
        · exact h
      have hcomm : coord b * (rest.map sz).prod + encodeGroup sz coord rest =
          encodeGroup sz coord rest + coord b * (rest.map sz).prod := Nat.add_comm _ _
      rw [hcomm, decodeCoord_add_mul sz rest a ha2 (coord b) (encodeGroup sz coord rest)]
      exact ih hrest a ha2

/-- The group found for an axis occurring in a target pattern is in range and
contains that axis. -/
theorem findGroup_mem (toPat : List (List String)) (a : String)
    (h : a ∈ toPat.flatten) :
    findGroup toPat a < toPat.length ∧ a ∈ toPat.getD (findGroup toPat a) [] := by
  induction toPat with
  | nil => simp at h
  | cons g rest ih =>
    by_cases hag : a ∈ g
    · have h0 : findGroup (g :: rest) a = 0 := by
        simp [findGroup, List.findIdx_cons, hag]
      rw [h0]
      exact ⟨Nat.succ_pos _, by simpa using hag⟩
    · have h2 : a ∈ rest.flatten := by
        rcases List.mem_flatten.mp h with ⟨l, hl, hal⟩
        rcases List.mem_cons.mp hl with hlg | hlr
        · exact absurd (hlg ▸ hal) hag
        · exact List.mem_flatten_of_mem hlr hal
      obtain ⟨hlt, hmem⟩ := ih h2
      have hstep : findGroup (g :: rest) a = findGroup rest a + 1 := by
        simp [findGroup, List.findIdx_cons, hag]
      rw [hstep]
      refine ⟨by simpa using Nat.succ_lt_succ hlt, ?_⟩
      simpa [List.getD_cons_succ] using hmem

/-- Encoding all source coordinates groupwise and then extracting the digit of
an axis from the group found for it recovers that axis' coordinate. -/
theorem decode_through_groups (toPat : List (List String)) (env coordOf : String → ℕ)
    (a : String) (ha : a ∈ toPat.flatten)
    (hb : ∀ b ∈ toPat.flatten, coordOf b < env b) :
    decodeCoord env (toPat.getD (findGroup toPat a) [])
      ((toPat.map (fun g => encodeGroup env coordOf g)).getD (findGroup toPat a) 0) a
      = coordOf a := by
  obtain ⟨hfind, hGmem⟩ := findGroup_mem toPat a ha
  have hGget : toPat.getD (findGroup toPat a) [] = toPat[findGroup toPat a] :=
    List.getD_eq_getElem toPat [] hfind
  have hidx2 : (toPat.map (fun g => encodeGroup env coordOf g)).getD (findGroup toPat a) 0 =
      encodeGroup env coordOf toPat[findGroup toPat a] := by
    rw [List.getD_eq_getElem _ _ (by simpa using hfind), List.getElem_map]
  have hbG : ∀ b ∈ toPat[findGroup toPat a], coordOf b < env b := by
    intro b hbmem
    exact hb b (List.mem_flatten_of_mem (List.getElem_mem hfind) hbmem)
  rw [hidx2, hGget]
  exact decodeCoord_encodeGroup env coordOf toPat[findGroup toPat a] hbG a (hGget ▸ hGmem)

/-- Claim C9: for a valid wrapper pattern pair — a duplicate-free
parenthesis-free source pattern, and a target pattern grouping a permutation of
the source axes (bare names and parenthesized merges) — and an input whose rank
matches the source pattern, the round trip restores the input's shape exactly
for any shape-preserving wrapped function, and with the identity wrapped
function the wrapper is the identity on the tensor (equal shape, and equal data
at every in-range coordinate tuple). -/
theorem einops_roundtrip_identity (fromNames : List String)
    (toPat : List (List String)) (x : ETensor)
    (hnd : fromNames.Nodup) (hperm : List.Perm toPat.flatten fromNames)
    (hrank : x.shape.length = fromNames.length) :
    (∀ fn : ETensor → ETensor,
        (fn (rearrangeMerge fromNames toPat x)).shape =
          (rearrangeMerge fromNames toPat x).shape →
        (einopsToAndFrom fromNames toPat fn x).shape = x.shape) ∧
    (einopsToAndFrom fromNames toPat (fun t => t) x).shape = x.shape ∧
    (∀ idx : List ℕ, idx.length = x.shape.length →
        (∀ i, i < x.shape.length → idx.getD i 0 < x.shape.getD i 0) →
        (einopsToAndFrom fromNames toPat (fun t => t) x).data idx = x.data idx) := by
  have hshape : ∀ fn : ETensor → ETensor,
      (einopsToAndFrom fromNames toPat fn x).shape = x.shape := by
    intro fn
    have h1 : (einopsToAndFrom fromNames toPat fn x).shape =
        fromNames.map (fun a => x.shape.getD (fromNames.indexOf a) 0) := rfl
    rw [h1, map_getD_indexOf_self hnd x.shape hrank]
  refine ⟨fun fn _ => hshape fn, hshape _, ?_⟩
  intro idx hlen hvalid
  have h1 : (einopsToAndFrom fromNames toPat (fun t => t) x).data idx =
      x.data (fromNames.map (fun a =>
        decodeCoord (fun a2 => x.shape.getD (fromNames.indexOf a2) 0)
          (toPat.getD (findGroup toPat a) [])
          ((toPat.map (fun g => encodeGroup
              (fun a2 => x.shape.getD (fromNames.indexOf a2) 0)
              (fun a2 => idx.getD (fromNames.indexOf a2) 0) g)).getD
            (findGroup toPat a) 0)
          a)) := rfl
  rw [h1]
  congr 1
  apply List.ext_getElem
  · simp only [List.length_map]
    omega
  · intro i h1l h2l
    simp only [List.getElem_map]
    have hif : i < fromNames.length := by simpa using h1l
    have hmemFrom : fromNames[i] ∈ fromNames := List.getElem_mem hif
    have hbound : ∀ b ∈ toPat.flatten,
        idx.getD (fromNames.indexOf b) 0 < x.shape.getD (fromNames.indexOf b) 0 := by
      intro b hbf
      have hbFrom : b ∈ fromNames := hperm.mem_iff.mp hbf
      have hblt : fromNames.indexOf b < fromNames.length :=
        List.indexOf_lt_length.mpr hbFrom
      exact hvalid (fromNames.indexOf b) (by omega)
    have hkey := decode_through_groups toPat
      (fun a2 => x.shape.getD (fromNames.indexOf a2) 0)
      (fun a2 => idx.getD (fromNames.indexOf a2) 0)
      fromNames[i] (hperm.mem_iff.mpr hmemFrom) hbound
    rw [hkey]
    simp only []
    rw [List.indexOf_getElem hnd i hif]
    exact List.getD_eq_getElem idx 0 h2l

/-- Witness for C9 at the module's own pattern pair `'l b c' -> 'b l c'` and at
a merging pair `'l b c' -> '(b l) c'`, on a concrete `[2, 3, 4]` tensor. -/
theorem einops_roundtrip_identity_witness :
    ((einopsToAndFrom ["l", "b", "c"] [["b"], ["l"], ["c"]] (fun t => t) xE0).shape =
        xE0.shape ∧
      (einopsToAndFrom ["l", "b", "c"] [["b"], ["l"], ["c"]] (fun t => t) xE0).data
        [1, 2, 3] = xE0.data [1, 2, 3]) ∧
    ((einopsToAndFrom ["l", "b", "c"] [["b", "l"], ["c"]] (fun t => t) xE0).shape =
        xE0.shape ∧
      (einopsToAndFrom ["l", "b", "c"] [["b", "l"], ["c"]] (fun t => t) xE0).data
        [1, 2, 3] = xE0.data [1, 2, 3]) :=
  ⟨⟨(einops_roundtrip_identity ["l", "b", "c"] [["b"], ["l"], ["c"]] xE0 (by decide)
        (by decide) (by decide)).2.1,
    (einops_roundtrip_identity ["l", "b", "c"] [["b"], ["l"], ["c"]] xE0 (by decide)
        (by decide) (by decide)).2.2 [1, 2, 3] (by decide) (by decide)⟩,
   ⟨(einops_roundtrip_identity ["l", "b", "c"] [["b", "l"], ["c"]] xE0 (by decide)
        (by decide) (by decide)).2.1,
    (einops_roundtrip_identity ["l", "b", "c"] [["b", "l"], ["c"]] xE0 (by decide)
        (by decide) (by decide)).2.2 [1, 2, 3] (by decide) (by decide)⟩⟩

/-- Unfolding of one entry of the relative-position-bias matrix: learned lookup
plus the hard-distance mask term. -/
theorem relPosBias_entry {heads : ℕ} (w : ℤ → Fin heads → ℝ)
    (numBuckets maxDistance n : ℕ) (ev : Bool) (h : Fin heads) (i j : Fin n) :
    relativePositionBiasForward w numBuckets maxDistance n ev h i j =
      w (relativePositionBucket ((j : ℤ) - (i : ℤ)) numBuckets maxDistance) h +
        -(((if 32 < (j : ℤ) - (i : ℤ) then (1 : ℝ) else 0) +
           (if (j : ℤ) - (i : ℤ) < -32 then (1 : ℝ) else 0)) * 100000000) := by
  simp only [relativePositionBiasForward, if_true]

/-- An entry at offset magnitude strictly above 32 is the learned lookup minus `1e8`. -/
theorem relPosBias_entry_far {heads : ℕ} (w : ℤ → Fin heads → ℝ)
    (numBuckets maxDistance n : ℕ) (ev : Bool) (h : Fin heads) (i j : Fin n)
    (hfar : 32 < |(j : ℤ) - (i : ℤ)|) :
    relativePositionBiasForward w numBuckets maxDistance n ev h i j =
      w (relativePositionBucket ((j : ℤ) - (i : ℤ)) numBuckets maxDistance) h
        - 100000000 := by
  rw [relPosBias_entry]
  rcases lt_abs.mp hfar with hgt | hlt
  · rw [if_pos hgt, if_neg (by omega)]
    ring
  · rw [if_neg (by omega), if_pos (by omega)]
    ring

/-- An entry at offset magnitude at most 32 is the learned lookup unchanged. -/
theorem relPosBias_entry_near {heads : ℕ} (w : ℤ → Fin heads → ℝ)
    (numBuckets maxDistance n : ℕ) (ev : Bool) (h : Fin heads) (i j : Fin n)
    (hnear : |(j : ℤ) - (i : ℤ)| ≤ 32) :
    relativePositionBiasForward w numBuckets maxDistance n ev h i j =
      w (relativePositionBucket ((j : ℤ) - (i : ℤ)) numBuckets maxDistance) h := by
  obtain ⟨hlo, hhi⟩ := abs_le.mp hnear
  rw [relPosBias_entry, if_neg (by omega), if_neg (by omega)]
  ring

/-- Claim C4: in the returned bias matrix, every entry `[h, i, j]` with
`|j - i| > 32` equals the looked-up learned bucket value minus `1e8` (hence is at
most the unmasked value minus `1e8`), while entries with `|j - i| ≤ 32` equal the
looked-up value unchanged. -/
theorem relPosBias_hard_distance_mask {heads n : ℕ} (w : ℤ → Fin heads → ℝ)
    (numBuckets maxDistance : ℕ) (ev : Bool) (h : Fin heads) (i j : Fin n) :
    (32 < |(j : ℤ) - (i : ℤ)| →
      relativePositionBiasForward w numBuckets maxDistance n ev h i j =
        w (relativePositionBucket ((j : ℤ) - (i : ℤ)) numBuckets maxDistance) h
          - 100000000 ∧
      relativePositionBiasForward w numBuckets maxDistance n ev h i j ≤
        w (relativePositionBucket ((j : ℤ) - (i : ℤ)) numBuckets maxDistance) h
          - 100000000) ∧
    (|(j : ℤ) - (i : ℤ)| ≤ 32 →
      relativePositionBiasForward w numBuckets maxDistance n ev h i j =
        w (relativePositionBucket ((j : ℤ) - (i : ℤ)) numBuckets maxDistance) h) := by
  constructor
  · intro hfar
    have he := relPosBias_entry_far w numBuckets maxDistance n ev h i j hfar
    exact ⟨he, le_of_eq he⟩
  · exact relPosBias_entry_near w numBuckets maxDistance n ev h i j

/-- Witness for C4 at offset 35 (hard-masked) with the decoder's default
configuration. -/
theorem relPosBias_hard_distance_mask_witness :
    relativePositionBiasForward w0 32 32 40 false 0 (0 : Fin 40) (35 : Fin 40) =
      w0 (relativePositionBucket (((35 : Fin 40) : ℤ) - ((0 : Fin 40) : ℤ)) 32 32) 0
        - 100000000 :=
  ((relPosBias_hard_distance_mask w0 32 32 false 0 (0 : Fin 40) (35 : Fin 40)).1
    (by decide)).1

/-- Claim C10: the hard-distance penalty of the bias forward operation is applied
unconditionally at the fixed threshold 32 for every configured `num_buckets` and
`max_distance`, and the `eval` parameter never affects the returned tensor. -/
theorem relPosBias_eval_inert {heads : ℕ} (w : ℤ → Fin heads → ℝ)
    (numBuckets maxDistance n : ℕ) (ev1 ev2 : Bool) :
    relativePositionBiasForward w numBuckets maxDistance n ev1 =
      relativePositionBiasForward w numBuckets maxDistance n ev2 ∧
    (∀ (h : Fin heads) (i j : Fin n), 32 < |(j : ℤ) - (i : ℤ)| →
      relativePositionBiasForward w numBuckets maxDistance n ev1 h i j =
        w (relativePositionBucket ((j : ℤ) - (i : ℤ)) numBuckets maxDistance) h
          - 100000000) :=
  ⟨rfl, fun h i j hfar => relPosBias_entry_far w numBuckets maxDistance n ev1 h i j hfar⟩

/-- Witness for C10 with `max_distance = 100 > 32`, an odd bucket count, and both
`eval` values. -/
theorem relPosBias_eval_inert_witness :
    relativePositionBiasForward w0 7 100 40 true =
      relativePositionBiasForward w0 7 100 40 false ∧
    relativePositionBiasForward w0 7 100 40 true 0 (0 : Fin 40) (35 : Fin 40) =
      w0 (relativePositionBucket (((35 : Fin 40) : ℤ) - ((0 : Fin 40) : ℤ)) 7 100) 0
        - 100000000 :=
  ⟨(relPosBias_eval_inert w0 7 100 40 true false).1,
   (relPosBias_eval_inert w0 7 100 40 true false).2 0 (0 : Fin 40) (35 : Fin 40)
     (by decide)⟩

/-- Claim C3: when `focus_present_mask` is supplied and all-true, the attention
block's output is the output projection applied to the value third of the fused
qkv projection of `x`, bypassing head splitting, scaling, rotary rotation,
similarity, bias addition and softmax. -/
theorem attention_focus_present_shortcut (heads dimHead B N dim : ℕ)
    (toQkv : Fin (3 * (heads * dimHead)) → Fin dim → ℝ)
    (toOut : Fin dim → Fin (heads * dimHead) → ℝ)
    (rot : Option (Tensor4 B heads N dimHead → Tensor4 B heads N dimHead))
    (x : Tensor3 B N dim)
    (posBias : Option (Fin heads → Fin N → Fin N → ℝ))
    (m : Fin B → Bool) (hm : ∀ i, m i = true) :
    attentionForward heads dimHead B N dim toQkv toOut rot x posBias (some m) =
      fun b n o => ∑ e, toOut o e *
        (∑ i, toQkv (finCombine (2 : Fin 3) e) i * x b n i) := by
  simp only [attentionForward]
  rw [if_pos (by simp [hm])]

/-- Witness for C3 at unit dimensions with an all-true mask. -/
theorem attention_focus_present_shortcut_witness :
    attentionForward 1 1 1 1 1 toQkv0 toOut0 none xA0 none (some fun _ => true) =
      fun b n o => ∑ e, toOut0 o e *
        (∑ i, toQkv0 (finCombine (2 : Fin 3) e) i * xA0 b n i) :=
  attention_focus_present_shortcut 1 1 1 1 1 toQkv0 toOut0 none xA0 none
    (fun _ => true) (by decide)

/-- Claim C5: the encoder subtracts frame 0 of each sample from every frame of
that sample and stores the result in the input batch under `x_delta`;
consequently `x_delta[:, 0, :]` is exactly zero for every batch element. -/
theorem encoder_x_delta_reference {bs nf posDim audioDim pld aLat : ℕ} [NeZero nf]
    (P : EncoderParams bs nf posDim audioDim pld aLat)
    (batch : EncoderBatch bs nf posDim audioDim) :
    (encoderForward P batch).1.xDelta =
        some (fun b t p => batch.x b t p - batch.x b 0 p) ∧
    ∀ delta : Tensor3 bs nf posDim,
      (encoderForward P batch).1.xDelta = some delta →
      ∀ (b : Fin bs) (p : Fin posDim), delta b 0 p = 0 := by
  refine ⟨rfl, ?_⟩
  intro delta hdelta b p
  have hd : delta = fun b t p => batch.x b t p - batch.x b 0 p :=
    Option.some.inj (hdelta.symm.trans rfl)
  rw [hd]
  exact sub_self _

/-- Witness for C5 on a concrete two-frame batch with a non-constant pose. -/
theorem encoder_x_delta_reference_witness :
    (encoderForward encP0 encBatch0).1.xDelta =
        some (fun b t p => encBatch0.x b t p - encBatch0.x b 0 p) ∧
    (fun (b : Fin 1) (t : Fin 2) (p : Fin 1) => encBatch0.x b t p - encBatch0.x b 0 p)
        0 0 0 = 0 :=
  ⟨(encoder_x_delta_reference encP0 encBatch0).1,
   (encoder_x_delta_reference encP0 encBatch0).2 _ rfl 0 0⟩

/-- Claim C6: the encoder's returned `mu` and `logvar` are produced by two
separate linear projections (`muW`/`muB` versus `sigmaW`/`sigmaB`) of the
per-frame transformer output, each of shape `[frames, batch, audio_latent_dim]`;
`mu`/`logvar` at frame `t` depend only on the transformer output at frame `t`
(no averaging or pooling over the time axis). -/
theorem encoder_mu_logvar_per_frame {bs nf posDim audioDim pld aLat : ℕ} [NeZero nf]
    (P : EncoderParams bs nf posDim audioDim pld aLat)
    (batch : EncoderBatch bs nf posDim audioDim) :
    (encoderForward P batch).2.mu =
        (fun t b c => linearMap P.muW P.muB (encoderFinal P batch t b) c) ∧
    (encoderForward P batch).2.logvar =
        (fun t b c => linearMap P.sigmaW P.sigmaB (encoderFinal P batch t b) c) :=
  ⟨rfl, rfl⟩

/-- Witness for C6 on a concrete two-frame batch. -/
theorem encoder_mu_logvar_per_frame_witness :
    (encoderForward encP0 encBatch0).2.mu =
        (fun t b c => linearMap encP0.muW encP0.muB (encoderFinal encP0 encBatch0 t b) c) ∧
    (encoderForward encP0 encBatch0).2.logvar =
        (fun t b c => linearMap encP0.sigmaW encP0.sigmaB (encoderFinal encP0 encBatch0 t b) c) :=
  encoder_mu_logvar_per_frame encP0 encBatch0

/-- Claim C1: the decoder's returned `output` tensor is batch-major of shape
`[B, F, pos_dim]`; wherever `mask[b, t]` is false the whole fibre
`output[b, t, :]` is exactly zero, and when the mask is all-true no entry is
forced to zero by the masking step (the output is exactly the pre-masking
pipeline value, permuted to batch-major). -/
theorem decoder_output_mask_zeroing {bs nf posDim audioDim aLat pld heads dimHead : ℕ}
    [NeZero nf] (numBuckets maxDistance : ℕ)
    (P : DecoderParams bs nf posDim audioDim aLat pld heads dimHead)
    (batch : DecoderBatch bs nf posDim audioDim aLat) :
    ∃ out : Tensor3 bs nf posDim,
      (decoderForward numBuckets maxDistance P batch).output = some out ∧
      (∀ (b : Fin bs) (t : Fin nf) (p : Fin posDim),
        batch.mask b t = false → out b t p = 0) ∧
      ((∀ (b : Fin bs) (t : Fin nf), batch.mask b t = true) →
        out = fun b t p =>
          decoderRaw numBuckets maxDistance P (fun bb pp => batch.x bb 0 pp)
            batch.z batch.y batch.mask t b p) := by
  refine ⟨fun b t p =>
    if batch.mask b t then
      decoderRaw numBuckets maxDistance P (fun bb pp => batch.x bb 0 pp)
        batch.z batch.y batch.mask t b p
    else 0, rfl, ?_, ?_⟩
  · intro b t p hm
    simp [hm]
  · intro hall
    funext b t p
    simp [hall b t]

/-- Witness for C1 on a concrete batch whose mask is true at frame 0 and false
at frame 1. -/
theorem decoder_output_mask_zeroing_witness :
    ∃ out : Tensor3 1 2 1,
      (decoderForward 32 32 decP0 decBatch0).output = some out ∧
      (∀ (b : Fin 1) (t : Fin 2) (p : Fin 1),
        decBatch0.mask b t = false → out b t p = 0) ∧
      ((∀ (b : Fin 1) (t : Fin 2), decBatch0.mask b t = true) →
        out = fun b t p =>
          decoderRaw 32 32 decP0 (fun bb pp => decBatch0.x bb 0 pp)
            decBatch0.z decBatch0.y decBatch0.mask t b p) :=
  decoder_output_mask_zeroing 32 32 decP0 decBatch0

/-- Claim C8: the decoder returns the batch with the computed pose tensor stored
under `output` (permuted to batch-major), and every other batch key (`x`, `z`,
`y`, `mask`, `lengths`) unchanged. -/
theorem decoder_preserves_batch_keys {bs nf posDim audioDim aLat pld heads dimHead : ℕ}
    [NeZero nf] (numBuckets maxDistance : ℕ)
    (P : DecoderParams bs nf posDim audioDim aLat pld heads dimHead)
    (batch : DecoderBatch bs nf posDim audioDim aLat) :
    (decoderForward numBuckets maxDistance P batch).x = batch.x ∧
    (decoderForward numBuckets maxDistance P batch).z = batch.z ∧
    (decoderForward numBuckets maxDistance P batch).y = batch.y ∧
    (decoderForward numBuckets maxDistance P batch).mask = batch.mask ∧
    (decoderForward numBuckets maxDistance P batch).lengths = batch.lengths ∧
    (decoderForward numBuckets maxDistance P batch).output =
      some (fun b t p =>
        if batch.mask b t then
          decoderRaw numBuckets maxDistance P (fun bb pp => batch.x bb 0 pp)
            batch.z batch.y batch.mask t b p
        else 0) :=
  ⟨rfl, rfl, rfl, rfl, rfl, rfl⟩

/-- Witness for C8 on a concrete batch. -/
theorem decoder_preserves_batch_keys_witness :
    (decoderForward 32 32 decP0 decBatch0).x = decBatch0.x ∧
    (decoderForward 32 32 decP0 decBatch0).z = decBatch0.z ∧
    (decoderForward 32 32 decP0 decBatch0).y = decBatch0.y ∧
    (decoderForward 32 32 decP0 decBatch0).mask = decBatch0.mask ∧
    (decoderForward 32 32 decP0 decBatch0).lengths = decBatch0.lengths ∧
    (decoderForward 32 32 decP0 decBatch0).output =
      some (fun b t p =>
        if decBatch0.mask b t then
          decoderRaw 32 32 decP0 (fun bb pp => decBatch0.x bb 0 pp)
            decBatch0.z decBatch0.y decBatch0.mask t b p
        else 0) :=
  decoder_preserves_batch_keys 32 32 decP0 decBatch0

/-- Claim C7: two decoder calls whose batches agree on `mask`, `y`, `z` and on
frame 0 of `x`, but differ arbitrarily in `lengths` and in frames `1..F-1` of
`x`, return equal `output` tensors. -/
theorem decoder_depends_only_on_frame0_x {bs nf posDim audioDim aLat pld heads dimHead : ℕ}
    [NeZero nf] (numBuckets maxDistance : ℕ)
    (P : DecoderParams bs nf posDim audioDim aLat pld heads dimHead)
    (b1 b2 : DecoderBatch bs nf posDim audioDim aLat)
    (hmask : b1.mask = b2.mask) (hy : b1.y = b2.y) (hz : b1.z = b2.z)
    (hx0 : ∀ (b : Fin bs) (p : Fin posDim), b1.x b 0 p = b2.x b 0 p) :
    (decoderForward numBuckets maxDistance P b1).output =
      (decoderForward numBuckets maxDistance P b2).output := by
  have hx : (fun bb pp => b1.x bb 0 pp) = (fun bb pp => b2.x bb 0 pp) :=
    funext fun bb => funext fun pp => hx0 bb pp
  have e1 : (decoderForward numBuckets maxDistance P b1).output =
      some (fun b t p =>
        if b1.mask b t then
          decoderRaw numBuckets maxDistance P (fun bb pp => b1.x bb 0 pp)
            b1.z b1.y b1.mask t b p
        else 0) := rfl
  have e2 : (decoderForward numBuckets maxDistance P b2).output =
      some (fun b t p =>
        if b2.mask b t then
          decoderRaw numBuckets maxDistance P (fun bb pp => b2.x bb 0 pp)
            b2.z b2.y b2.mask t b p
        else 0) := rfl
  rw [e1, e2, hmask, hy, hz, hx]

/-- Witness for C7 on concrete batches differing in `lengths` and in frame 1 of
`x` only. -/
theorem decoder_depends_only_on_frame0_x_witness :
    (decoderForward 32 32 decP0 decBatch0).output =
      (decoderForward 32 32 decP0 decBatch1).output :=
  decoder_depends_only_on_frame0_x 32 32 decP0 decBatch0 decBatch1 rfl rfl rfl
    (by intro b p; simp [decBatch0, decBatch1])

/-- Truncation toward zero agrees with the floor on nonnegative reals. -/
theorem realTrunc_of_nonneg {x : ℝ} (h : 0 ≤ x) : realTrunc x = ⌊x⌋ := by
  simp only [realTrunc]
  rw [if_pos h]

/-- The bucket function splits into the sign-half offset plus the magnitude part. -/
theorem relativePositionBucket_eq_half (k : ℤ) (numBuckets maxDistance : ℕ) :
    relativePositionBucket k numBuckets maxDistance =
      (if 0 < k then ((numBuckets / 2 : ℕ) : ℤ) else 0) +
        bucketHalf |k| numBuckets maxDistance := by
  simp only [relativePositionBucket, bucketHalf, abs_neg, neg_lt_zero]

/-- A mixed-cast comparison: a natural bounded by an integer transfers to ℝ. -/
theorem natCast_le_int_to_real {m : ℕ} {n : ℤ} (h : (m : ℤ) ≤ n) : (m : ℝ) ≤ (n : ℝ) := by
  have h2 : ((m : ℤ) : ℝ) ≤ ((n : ℤ) : ℝ) := Int.cast_le.mpr h
  push_cast at h2
  exact h2

/-- The logarithmic interpolation term is nonnegative on the large-magnitude
region (given a nontrivial bucket range and `max_exact < max_distance`). -/
theorem logProduct_nonneg (numBuckets maxDistance : ℕ)
    (hme : 1 ≤ numBuckets / 2 / 2) (hmd : numBuckets / 2 / 2 < maxDistance)
    {n : ℤ} (h : ((numBuckets / 2 / 2 : ℕ) : ℤ) ≤ n) :
    0 ≤ Real.log ((n : ℝ) / ((numBuckets / 2 / 2 : ℕ) : ℝ)) /
        Real.log ((maxDistance : ℝ) / ((numBuckets / 2 / 2 : ℕ) : ℝ)) *
        (((numBuckets / 2 : ℕ) : ℝ) - ((numBuckets / 2 / 2 : ℕ) : ℝ)) := by
  have hmepos : (0 : ℝ) < ((numBuckets / 2 / 2 : ℕ) : ℝ) := by
    exact_mod_cast Nat.lt_of_lt_of_le Nat.zero_lt_one hme
  have hlog1 : 0 ≤ Real.log ((n : ℝ) / ((numBuckets / 2 / 2 : ℕ) : ℝ)) :=
    Real.log_nonneg ((one_le_div hmepos).mpr (natCast_le_int_to_real h))
  have hlog2 : 0 < Real.log ((maxDistance : ℝ) / ((numBuckets / 2 / 2 : ℕ) : ℝ)) :=
    Real.log_pos ((one_lt_div hmepos).mpr (by exact_mod_cast hmd))
  have hnbme : (0 : ℝ) ≤ ((numBuckets / 2 : ℕ) : ℝ) - ((numBuckets / 2 / 2 : ℕ) : ℝ) := by
    rw [sub_nonneg]
    exact_mod_cast Nat.div_le_self (numBuckets / 2) 2
  exact mul_nonneg (div_nonneg hlog1 hlog2.le) hnbme

/-- The logarithmic interpolation term is monotone on the large-magnitude region. -/
theorem logProduct_mono (numBuckets maxDistance : ℕ)
    (hme : 1 ≤ numBuckets / 2 / 2) (hmd : numBuckets / 2 / 2 < maxDistance)
    {a b : ℤ} (ha : ((numBuckets / 2 / 2 : ℕ) : ℤ) ≤ a) (hab : a ≤ b) :
    Real.log ((a : ℝ) / ((numBuckets / 2 / 2 : ℕ) : ℝ)) /
        Real.log ((maxDistance : ℝ) / ((numBuckets / 2 / 2 : ℕ) : ℝ)) *
        (((numBuckets / 2 : ℕ) : ℝ) - ((numBuckets / 2 / 2 : ℕ) : ℝ)) ≤
      Real.log ((b : ℝ) / ((numBuckets / 2 / 2 : ℕ) : ℝ)) /
        Real.log ((maxDistance : ℝ) / ((numBuckets / 2 / 2 : ℕ) : ℝ)) *
        (((numBuckets / 2 : ℕ) : ℝ) - ((numBuckets / 2 / 2 : ℕ) : ℝ)) := by
  have hmepos : (0 : ℝ) < ((numBuckets / 2 / 2 : ℕ) : ℝ) := by
    exact_mod_cast Nat.lt_of_lt_of_le Nat.zero_lt_one hme
  have hapos : (0 : ℝ) < (a : ℝ) := by
    have : (0 : ℤ) < a := lt_of_lt_of_le (by exact_mod_cast hme) ha
    exact_mod_cast this
  have hdivpos : (0 : ℝ) < (a : ℝ) / ((numBuckets / 2 / 2 : ℕ) : ℝ) :=
    div_pos hapos hmepos
  have hlog : Real.log ((a : ℝ) / ((numBuckets / 2 / 2 : ℕ) : ℝ)) ≤
      Real.log ((b : ℝ) / ((numBuckets / 2 / 2 : ℕ) : ℝ)) :=
    Real.log_le_log hdivpos ((div_le_div_right hmepos).mpr (by exact_mod_cast hab))
  have hlog2 : 0 < Real.log ((maxDistance : ℝ) / ((numBuckets / 2 / 2 : ℕ) : ℝ)) :=
    Real.log_pos ((one_lt_div hmepos).mpr (by exact_mod_cast hmd))
  have hnbme : (0 : ℝ) ≤ ((numBuckets / 2 : ℕ) : ℝ) - ((numBuckets / 2 / 2 : ℕ) : ℝ) := by
    rw [sub_nonneg]
    exact_mod_cast Nat.div_le_self (numBuckets / 2) 2
  exact mul_le_mul_of_nonneg_right ((div_le_div_right hlog2).mpr hlog) hnbme

/-- On the small-magnitude region the half value is the magnitude itself. -/
theorem bucketHalf_small {n : ℤ} (numBuckets maxDistance : ℕ)
    (h : n < ((numBuckets / 2 / 2 : ℕ) : ℤ)) :
    bucketHalf n numBuckets maxDistance = n := by
  simp only [bucketHalf]
  rw [if_pos h]

/-- On the large-magnitude region the half value is the clipped floor of the
logarithmic interpolation. -/
theorem bucketHalf_large {n : ℤ} (numBuckets maxDistance : ℕ)
    (hme : 1 ≤ numBuckets / 2 / 2) (hmd : numBuckets / 2 / 2 < maxDistance)
    (h : ((numBuckets / 2 / 2 : ℕ) : ℤ) ≤ n) :
    bucketHalf n numBuckets maxDistance =
      min (((numBuckets / 2 / 2 : ℕ) : ℤ) +
        ⌊Real.log ((n : ℝ) / ((numBuckets / 2 / 2 : ℕ) : ℝ)) /
          Real.log ((maxDistance : ℝ) / ((numBuckets / 2 / 2 : ℕ) : ℝ)) *
          (((numBuckets / 2 : ℕ) : ℝ) - ((numBuckets / 2 / 2 : ℕ) : ℝ))⌋)
        (((numBuckets / 2 : ℕ) : ℤ) - 1) := by
  simp only [bucketHalf]
  rw [if_neg (not_lt.mpr h), realTrunc_of_nonneg (logProduct_nonneg numBuckets maxDistance hme hmd h)]

/-- The half value is nonnegative on nonnegative magnitudes. -/
theorem bucketHalf_nonneg (numBuckets maxDistance : ℕ)
    (hme : 1 ≤ numBuckets / 2 / 2) (hmd : numBuckets / 2 / 2 < maxDistance)
    {n : ℤ} (hn : 0 ≤ n) :
    0 ≤ bucketHalf n numBuckets maxDistance := by
  by_cases hs : n < ((numBuckets / 2 / 2 : ℕ) : ℤ)
  · rw [bucketHalf_small numBuckets maxDistance hs]; exact hn
  · rw [bucketHalf_large numBuckets maxDistance hme hmd (not_lt.mp hs)]
    have hfl : (0 : ℤ) ≤ ⌊Real.log ((n : ℝ) / ((numBuckets / 2 / 2 : ℕ) : ℝ)) /
          Real.log ((maxDistance : ℝ) / ((numBuckets / 2 / 2 : ℕ) : ℝ)) *
          (((numBuckets / 2 : ℕ) : ℝ) - ((numBuckets / 2 / 2 : ℕ) : ℝ))⌋ :=
      Int.floor_nonneg.mpr (logProduct_nonneg numBuckets maxDistance hme hmd (not_lt.mp hs))
    apply le_min
    · omega
    · omega

/-- The half value stays strictly below the halved bucket count. -/
theorem bucketHalf_lt (numBuckets maxDistance : ℕ)
    (hme : 1 ≤ numBuckets / 2 / 2) (hmd : numBuckets / 2 / 2 < maxDistance)
    {n : ℤ} (hn : 0 ≤ n) :
    bucketHalf n numBuckets maxDistance < ((numBuckets / 2 : ℕ) : ℤ) := by
  by_cases hs : n < ((numBuckets / 2 / 2 : ℕ) : ℤ)
  · rw [bucketHalf_small numBuckets maxDistance hs]
    have : ((numBuckets / 2 / 2 : ℕ) : ℤ) ≤ ((numBuckets / 2 : ℕ) : ℤ) := by
      exact_mod_cast Nat.div_le_self (numBuckets / 2) 2
    omega
  · rw [bucketHalf_large numBuckets maxDistance hme hmd (not_lt.mp hs)]
    apply lt_of_le_of_lt (min_le_right _ _)
    omega

/-- The half value is monotone in the magnitude. -/
theorem bucketHalf_mono (numBuckets maxDistance : ℕ)
    (hme : 1 ≤ numBuckets / 2 / 2) (hmd : numBuckets / 2 / 2 < maxDistance)
    {a b : ℤ} (ha : 0 ≤ a) (hab : a ≤ b) :
    bucketHalf a numBuckets maxDistance ≤ bucketHalf b numBuckets maxDistance := by
  by_cases hsb : b < ((numBuckets / 2 / 2 : ℕ) : ℤ)
  · rw [bucketHalf_small numBuckets maxDistance (lt_of_le_of_lt hab hsb),
      bucketHalf_small numBuckets maxDistance hsb]
    exact hab
  · have hb : ((numBuckets / 2 / 2 : ℕ) : ℤ) ≤ b := not_lt.mp hsb
    rw [bucketHalf_large numBuckets maxDistance hme hmd hb]
    by_cases hsa : a < ((numBuckets / 2 / 2 : ℕ) : ℤ)
    · rw [bucketHalf_small numBuckets maxDistance hsa]
      have hfl : (0 : ℤ) ≤ ⌊Real.log ((b : ℝ) / ((numBuckets / 2 / 2 : ℕ) : ℝ)) /
            Real.log ((maxDistance : ℝ) / ((numBuckets / 2 / 2 : ℕ) : ℝ)) *
            (((numBuckets / 2 : ℕ) : ℝ) - ((numBuckets / 2 / 2 : ℕ) : ℝ))⌋ :=
        Int.floor_nonneg.mpr (logProduct_nonneg numBuckets maxDistance hme hmd hb)
      apply le_min
      · omega
      · omega
    · have haa : ((numBuckets / 2 / 2 : ℕ) : ℤ) ≤ a := not_lt.mp hsa
      rw [bucketHalf_large numBuckets maxDistance hme hmd haa]
      apply min_le_min _ le_rfl
      have hmono := logProduct_mono numBuckets maxDistance hme hmd haa hab
      have := Int.floor_le_floor hmono
      omega

/-- Every bucket index is nonnegative. -/
theorem relativePositionBucket_nonneg (numBuckets maxDistance : ℕ)
    (hme : 1 ≤ numBuckets / 2 / 2) (hmd : numBuckets / 2 / 2 < maxDistance)
    (k : ℤ) : 0 ≤ relativePositionBucket k numBuckets maxDistance := by
  rw [relativePositionBucket_eq_half]
  have hhalf := bucketHalf_nonneg numBuckets maxDistance hme hmd (abs_nonneg k)
  by_cases hk : 0 < k
  · rw [if_pos hk]; omega
  · rw [if_neg hk]; omega

/-- Every bucket index is strictly below `num_buckets`. -/
theorem relativePositionBucket_lt (numBuckets maxDistance : ℕ)
    (hme : 1 ≤ numBuckets / 2 / 2) (hmd : numBuckets / 2 / 2 < maxDistance)
    (k : ℤ) : relativePositionBucket k numBuckets maxDistance < (numBuckets : ℤ) := by
  rw [relativePositionBucket_eq_half]
  have hhalf := bucketHalf_lt numBuckets maxDistance hme hmd (abs_nonneg k)
  by_cases hk : 0 < k
  · rw [if_pos hk]; omega
  · rw [if_neg hk]; omega

/-- Claim C2: for a nontrivial configuration (`num_buckets / 4 ≥ 1` and
`max_exact < max_distance`, satisfied by every configuration appearing in the
module), the bucket function (i) always lands in `[0, num_buckets)`,
(ii) sends offsets `k > 0` into the upper half `[num_buckets/2, num_buckets)`
and their negations into the lower half `[0, num_buckets/2)` (disjoint halves),
(iii) is monotonically non-decreasing in `|k|` within each half, and is
(iv) linear (the magnitude itself, plus the half offset) for `|k|` below
`max_exact` and (v) the clipped floor of the logarithmic interpolation beyond
it. -/
theorem relativePositionBucket_spec (numBuckets maxDistance : ℕ)
    (hme : 1 ≤ numBuckets / 2 / 2) (hmd : numBuckets / 2 / 2 < maxDistance) :
    (∀ k : ℤ, 0 ≤ relativePositionBucket k numBuckets maxDistance ∧
        relativePositionBucket k numBuckets maxDistance < (numBuckets : ℤ)) ∧
    (∀ k : ℤ, 0 < k →
        ((numBuckets / 2 : ℕ) : ℤ) ≤ relativePositionBucket k numBuckets maxDistance ∧
        relativePositionBucket (-k) numBuckets maxDistance < ((numBuckets / 2 : ℕ) : ℤ)) ∧
    (∀ a b : ℤ, 0 ≤ a → a ≤ b →
        relativePositionBucket a numBuckets maxDistance ≤
          relativePositionBucket b numBuckets maxDistance ∧
        relativePositionBucket (-a) numBuckets maxDistance ≤
          relativePositionBucket (-b) numBuckets maxDistance) ∧
    (∀ k : ℤ, 0 ≤ k → k < ((numBuckets / 2 / 2 : ℕ) : ℤ) →
        relativePositionBucket (-k) numBuckets maxDistance = k ∧
        (0 < k → relativePositionBucket k numBuckets maxDistance =
          ((numBuckets / 2 : ℕ) : ℤ) + k)) ∧
    (∀ k : ℤ, ((numBuckets / 2 / 2 : ℕ) : ℤ) ≤ k →
        relativePositionBucket (-k) numBuckets maxDistance =
          min (((numBuckets / 2 / 2 : ℕ) : ℤ) +
            ⌊Real.log ((k : ℝ) / ((numBuckets / 2 / 2 : ℕ) : ℝ)) /
              Real.log ((maxDistance : ℝ) / ((numBuckets / 2 / 2 : ℕ) : ℝ)) *
              (((numBuckets / 2 : ℕ) : ℝ) - ((numBuckets / 2 / 2 : ℕ) : ℝ))⌋)
            (((numBuckets / 2 : ℕ) : ℤ) - 1)) := by
  refine ⟨?_, ?_, ?_, ?_, ?_⟩
  · intro k
    exact ⟨relativePositionBucket_nonneg numBuckets maxDistance hme hmd k,
      relativePositionBucket_lt numBuckets maxDistance hme hmd k⟩
  · intro k hk
    constructor
    · rw [relativePositionBucket_eq_half, if_pos hk]
      have hhalf := bucketHalf_nonneg numBuckets maxDistance hme hmd (abs_nonneg k)
      omega
    · rw [relativePositionBucket_eq_half, if_neg (by omega : ¬(0 : ℤ) < -k), abs_neg]
      have hhalf := bucketHalf_lt numBuckets maxDistance hme hmd (abs_nonneg k)
      omega
  · intro a b ha hab
    constructor
    · by_cases h0a : 0 < a
      · rw [relativePositionBucket_eq_half, relativePositionBucket_eq_half,
          if_pos h0a, if_pos (lt_of_lt_of_le h0a hab)]
        have habs : |a| ≤ |b| := by
          rw [abs_of_pos h0a, abs_of_pos (lt_of_lt_of_le h0a hab)]
          exact hab
        have hhalf := bucketHalf_mono numBuckets maxDistance hme hmd (abs_nonneg a) habs
        omega
      · have ha0 : a = 0 := le_antisymm (not_lt.mp h0a) ha
        subst ha0
        have h1 := relativePositionBucket_nonneg numBuckets maxDistance hme hmd b
        have h0 : relativePositionBucket 0 numBuckets maxDistance = 0 := by
          rw [relativePositionBucket_eq_half, if_neg (lt_irrefl 0), abs_zero,
            bucketHalf_small numBuckets maxDistance
              (by exact_mod_cast Nat.lt_of_lt_of_le Nat.zero_lt_one hme)]
          ring
        rw [h0]
        exact h1
    · rw [relativePositionBucket_eq_half, relativePositionBucket_eq_half,
        if_neg (by omega : ¬(0 : ℤ) < -a), if_neg (by omega : ¬(0 : ℤ) < -b),
        abs_neg, abs_neg]
      have habs : |a| ≤ |b| := by
        rw [abs_of_nonneg ha, abs_of_nonneg (ha.trans hab)]
        exact hab
      have hhalf := bucketHalf_mono numBuckets maxDistance hme hmd (abs_nonneg a) habs
      omega
  · intro k hk0 hkme
    constructor
    · rw [relativePositionBucket_eq_half, if_neg (by omega : ¬(0 : ℤ) < -k), abs_neg,
        abs_of_nonneg hk0, bucketHalf_small numBuckets maxDistance hkme, zero_add]
    · intro hkpos
      rw [relativePositionBucket_eq_half, if_pos hkpos, abs_of_pos hkpos,
        bucketHalf_small numBuckets maxDistance hkme]
  · intro k hk
    have hk0 : (0 : ℤ) ≤ k := le_trans (Int.natCast_nonneg _) hk
    rw [relativePositionBucket_eq_half, if_neg (by omega : ¬(0 : ℤ) < -k), abs_neg,
      abs_of_nonneg hk0, bucketHalf_large numBuckets maxDistance hme hmd hk, zero_add]

/-- Witness for C2 at the bucket function's default configuration
`num_buckets = 32`, `max_distance = 128`. -/
theorem relativePositionBucket_spec_witness :
    (∀ k : ℤ, 0 ≤ relativePositionBucket k 32 128 ∧
        relativePositionBucket k 32 128 < (32 : ℤ)) ∧
    (∀ k : ℤ, 0 < k →
        ((32 / 2 : ℕ) : ℤ) ≤ relativePositionBucket k 32 128 ∧
        relativePositionBucket (-k) 32 128 < ((32 / 2 : ℕ) : ℤ)) ∧
    (∀ a b : ℤ, 0 ≤ a → a ≤ b →
        relativePositionBucket a 32 128 ≤ relativePositionBucket b 32 128 ∧
        relativePositionBucket (-a) 32 128 ≤ relativePositionBucket (-b) 32 128) ∧
    (∀ k : ℤ, 0 ≤ k → k < ((32 / 2 / 2 : ℕ) : ℤ) →
        relativePositionBucket (-k) 32 128 = k ∧
        (0 < k → relativePositionBucket k 32 128 = ((32 / 2 : ℕ) : ℤ) + k)) ∧
    (∀ k : ℤ, ((32 / 2 / 2 : ℕ) : ℤ) ≤ k →
        relativePositionBucket (-k) 32 128 =
          min (((32 / 2 / 2 : ℕ) : ℤ) +
            ⌊Real.log ((k : ℝ) / ((32 / 2 / 2 : ℕ) : ℝ)) /
              Real.log ((128 : ℝ) / ((32 / 2 / 2 : ℕ) : ℝ)) *
              (((32 / 2 : ℕ) : ℝ) - ((32 / 2 / 2 : ℕ) : ℝ))⌋)
            (((32 / 2 : ℕ) : ℤ) - 1)) :=
  relativePositionBucket_spec 32 128 (by norm_num) (by norm_num)
